import Mathlib

/-!
# Verification of the moodify affect pipeline (`runner.py`)

Shallow embedding of the affective-audio-inference pipeline of
`src/runner.py`: the fixed emotion catalog, nearest-emotion search,
color-cluster resolution, affine normalization, waveform window fixing,
feature-descriptor shapes, the regressor orchestration, and the module-level
name bindings.  Python floats are embedded as rationals (`ℚ`), read off the
decimal literals of the source; machine waveforms are lists of samples.
-/

namespace Moodify

/-! ## Definitions: the embedded pipeline -/

/-- The fixed emotion catalog `emotions` of `runner.py` (lines 157-192), in
source order (Python dicts preserve insertion order): name, valence, arousal. -/
def emotions : List (String × ℚ × ℚ) :=
  [ ("Sleepy", 0.01, -1.00),
    ("Tired", -0.01, -1.00),
    ("Afraid", -0.12, 0.79),
    ("Angry", -0.40, 0.79),
    ("Calm", 0.78, -0.68),
    ("Relaxed", 0.71, -0.65),
    ("Content", 0.81, -0.55),
    ("Depressed", -0.81, -0.48),
    ("Discontent", -0.68, -0.32),
    ("Determined", 0.73, 0.26),
    ("Happy", 0.89, 0.17),
    ("Anxious", -0.72, -0.80),
    ("Good", 0.90, -0.08),
    ("Pensive", 0.03, -0.60),
    ("Impressed", 0.39, -0.06),
    ("Frustrated", -0.60, 0.40),
    ("Disappointed", -0.80, -0.03),
    ("Bored", -0.35, -0.78),
    ("Annoyed", -0.44, 0.76),
    ("Enraged", -0.18, 0.83),
    ("Excited", 0.70, 0.71),
    ("Melancholy", -0.05, -0.65),
    ("Satisfied", 0.77, -0.63),
    ("Distressed", -0.71, 0.55),
    ("Uncomfortable", -0.68, -0.37),
    ("Worried", -0.07, -0.32),
    ("Amused", 0.55, 0.19),
    ("Apathetic", -0.20, -0.12),
    ("Peaceful", 0.55, -0.80),
    ("Contemplative", 0.58, -0.60),
    ("Embarrassed", -0.31, -0.60),
    ("Sad", -0.81, -0.40),
    ("Hopeful", 0.61, -0.30),
    ("Pleased", 0.89, -0.10) ]

/-- Squared Euclidean distance from the query `(valence, arousal)` to a catalog
reference point.  The source compares `math.sqrt` of these values with strict
`<`; the square root is strictly monotone on nonnegative reals, so comparing
square roots agrees with comparing the squares, and the loop is embedded over
squared distances (a query is at distance 0 iff its squared distance is 0). -/
def dist2 (valence arousal : ℚ) (p : ℚ × ℚ) : ℚ :=
  (valence - p.1) ^ 2 + (arousal - p.2) ^ 2

/-- One iteration of the loop of `find_emotion` (runner.py lines 198-203): the
accumulator holds `(closest_emotion, min_distance)`, with `none` standing for
the initial `(None, math.inf)`; a later entry replaces the current best only
when its distance is strictly smaller. -/
def emoStep (valence arousal : ℚ) (best : Option String × Option ℚ)
    (e : String × ℚ × ℚ) : Option String × Option ℚ :=
  let d := dist2 valence arousal e.2
  match best.2 with
  | none => (some e.1, some d)
  | some m => if d < m then (some e.1, some d) else best

/-- Function `find_emotion` of `runner.py` (lines 194-205). -/
def find_emotion (valence arousal : ℚ) : Option String :=
  (emotions.foldl (emoStep valence arousal) (none, none)).1

/-- Table `clustered_emotions` of `runner.py` (lines 207-235), in source order. -/
def clustered_emotions : List (String × List String) :=
  [ ("blue", ["Determined", "Happy", "Good", "Impressed", "Excited", "Amused",
      "Hopeful", "Pleased"]),
    ("red", ["Depressed", "Discontent", "Anxious", "Disappointed", "Bored",
      "Uncomfortable", "Worried", "Apathetic", "Embarrassed", "Sad"]),
    ("green", ["Afraid", "Angry", "Frustrated", "Annoyed", "Enraged",
      "Distressed"]),
    ("purple", ["Sleepy", "Tired", "Calm", "Relaxed", "Content", "Pensive",
      "Melancholy", "Satisfied", "Peaceful", "Contemplative"]) ]

/-- The loop of `get_colormap` over `clustered_emotions.items()` (runner.py
lines 241-244): the first cluster whose list contains the emotion gives its
color, otherwise `None`. -/
def color_of (emotion : String) : Option String :=
  (clustered_emotions.find? (fun ce => ce.2.contains emotion)).map Prod.fst

/-- Function `normalize_value` of `runner.py` (lines 246-247). -/
def normalize_value (value : ℚ) : ℚ := (value - 1) / 4 - 1

/-- Function `get_colormap` of `runner.py` (lines 238-244): normalize both coordinates,
find the nearest emotion, resolve its color cluster. -/
def get_colormap (valence arousal : ℚ) : Option String :=
  match find_emotion (normalize_value valence) (normalize_value arousal) with
  | some emotion => color_of emotion
  | none => none

/-- The fixed decoding sample rate (`sample_rate = 44100` in
`Predictor.extract_features`, runner.py line 132). -/
def sample_rate : ℕ := 44100

/-- The fixed 45-second window of `sr * 45` samples. -/
def window_len : ℕ := sample_rate * 45

/-- Length normalization of the decoded waveform (runner.py lines 134-136):
zero-pad at the end when shorter than `sr * 45`, then slice `wave[:sr * 45]`. -/
def fix_window (wave : List ℚ) : List ℚ :=
  (if wave.length < window_len
    then wave ++ List.replicate (window_len - wave.length) 0
    else wave).take window_len

/-- The hop, `hop_length = int(sr * 0.01)` (runner.py line 138). -/
def hop_length : ℕ := 441

/-- The window, `win_length = int(sr * 0.025)` (runner.py line 139; 1102.5 truncated). -/
def win_length : ℕ := 1102

/-- Frame count of a centered short-time transform over a signal of the given
length, modelled from the library contract; only the facts that it is a
function of the signal length alone, and shared by all three descriptors,
matter below. -/
def n_frames (len : ℕ) : ℕ := 1 + len / hop_length

/-- Modelled from the library contract: a spectral descriptor is a matrix with
one row per band and one column per frame.  The numeric content of a cell is
abstracted (no claim below depends on it); the shape is the contract. -/
def descriptor_rows (bands : ℕ) (wave : List ℚ) : List (List ℚ) :=
  List.replicate bands (List.replicate (n_frames wave.length) wave.sum)

/-- Descriptor `librosa.feature.mfcc` with `n_mfcc` cepstral bands (shape contract). -/
def mfcc (n_mfcc : ℕ) (wave : List ℚ) : List (List ℚ) := descriptor_rows n_mfcc wave

/-- Descriptor `librosa.feature.chroma_stft`: 12 pitch-class rows (shape contract). -/
def chroma_stft (wave : List ℚ) : List (List ℚ) := descriptor_rows 12 wave

/-- Descriptor `librosa.feature.spectral_contrast`: `n_bands + 1 = 7` rows by default
(shape contract). -/
def spectral_contrast (wave : List ℚ) : List (List ℚ) := descriptor_rows 7 wave

/-- Method `Predictor.extract_features` (runner.py lines 131-147): fix the decoded
waveform to the 45-second window, then concatenate the 20-band mfcc, 12-band
chroma and 7-band spectral-contrast descriptors along the channel axis. -/
def Predictor.extract_features (wave : List ℚ) : List (List ℚ) :=
  mfcc 20 (fix_window wave) ++ chroma_stft (fix_window wave)
    ++ spectral_contrast (fix_window wave)

/-- Training / evaluation flag of a torch module; `model.eval()` switches the
module (and its dropout and normalization statistics) to evaluation mode. -/
inductive Mode
  | train
  | eval
deriving DecidableEq

/-- Dropout with drop probability 1/2 (`nn.Dropout(p=0.5)`, runner.py line 58),
taking an external stream of coin flips — the only source of randomness in the
network.  In training mode unit `i` is zeroed when its coin fires and scaled by
`1/(1-p) = 2` otherwise; in evaluation mode dropout is the identity and the
stream is ignored. -/
def dropout (mode : Mode) (coins : ℕ → Bool) (x : List ℚ) : List ℚ :=
  match mode with
  | Mode.train =>
      ((List.range x.length).zip x).map (fun p => if coins p.1 then 0 else 2 * p.2)
  | Mode.eval => x

/-- Rectified linear unit. -/
def relu (x : ℚ) : ℚ := max x 0

/-- The `AudioNet` regressor (runner.py lines 30-81).  The convolution /
pooling / attention stack and the two fully connected layers are deterministic
functions of the loaded weights and are kept abstract as fields: the claims
below concern the channel-count contract, the placement of dropout between
`fc1` and the activation, and the mode flag — not the numerics of convolution.
`in_ch` is the configured input channel count (39 for both instances). -/
structure AudioNet where
  in_ch : ℕ
  conv_stack : List (List ℚ) → List ℚ
  fc1 : List ℚ → List ℚ
  fc2 : List ℚ → ℚ
  mode : Mode

/-- Method `AudioNet.forward` (runner.py lines 71-81): conv1, conv2, pool, flatten,
attention (the deterministic `conv_stack`), then `fc1`, dropout, ReLU, `fc2`. -/
def AudioNet.forward (net : AudioNet) (coins : ℕ → Bool) (x : List (List ℚ)) : ℚ :=
  net.fc2 ((dropout net.mode coins (net.fc1 (net.conv_stack x))).map relu)

/-- Method `Predictor.load_model` (runner.py lines 124-129): load the weights and call
`model.eval()`, freezing dropout and normalization statistics to evaluation
mode. -/
def Predictor.load_model (net : AudioNet) : AudioNet := { net with mode := Mode.eval }

/-- Method `Predictor.extract_features` instrumented with a count of how many times
the descriptor is computed, for the single-computation claim. -/
def Predictor.extract_features_counting (wave : List ℚ) :
    StateM ℕ (List (List ℚ)) := do
  modify (· + 1)
  pure (Predictor.extract_features wave)

/-- Method `Predictor.predict` (runner.py lines 149-154) with the descriptor
computation counted: `features = self.extract_features(...)` runs once, then
both regressors consume the bound value under `torch.no_grad()`. -/
def Predictor.predict_counting (valence_model arousal_model : AudioNet)
    (coins : ℕ → Bool) (wave : List ℚ) : StateM ℕ (ℚ × ℚ) := do
  let features ← Predictor.extract_features_counting wave
  pure (valence_model.forward coins features, arousal_model.forward coins features)

/-- Method `Predictor.predict`: the value computed by the counted run. -/
def Predictor.predict (valence_model arousal_model : AudioNet)
    (coins : ℕ → Bool) (wave : List ℚ) : ℚ × ℚ :=
  ((Predictor.predict_counting valence_model arousal_model coins wave).run 0).1

/-- The spec's error taxonomy for the affect pipeline. -/
inductive PipelineError
  | decodeError
  | featureError
  | shapeError
deriving DecidableEq

/-- Modelled from the spec: decoding an audio file yields a waveform or fails
with `DecodeError` (the decoder itself, `librosa.load`, is outside the
repository).  An audio file is represented by its decodable content, `none`
when unreadable or unsupported. -/
def decode_audio (file : Option (List ℚ)) : Except PipelineError (List ℚ) :=
  match file with
  | none => Except.error PipelineError.decodeError
  | some wave => Except.ok wave

/-- Modelled from the spec: feature extraction fails with `FeatureError` on an
empty (degenerate) waveform, and otherwise computes the 39-channel
descriptor. -/
def extract_features_checked (wave : List ℚ) :
    Except PipelineError (List (List ℚ)) :=
  if wave.isEmpty then Except.error PipelineError.featureError
  else Except.ok (Predictor.extract_features wave)

/-- The regressor's channel contract (`Conv1d` raises on a channel mismatch):
the forward pass succeeds exactly when the descriptor has `in_ch` channels,
and fails with `ShapeError` otherwise. -/
def AudioNet.forward_checked (net : AudioNet) (coins : ℕ → Bool)
    (x : List (List ℚ)) : Except PipelineError ℚ :=
  if x.length = net.in_ch then Except.ok (net.forward coins x)
  else Except.error PipelineError.shapeError

/-- The pipeline of `Predictor.predict` (runner.py lines 149-154) with the
failure cases explicit: decode, extract, then both forward passes.  The body
has no handler — the monadic bind stops at the first error. -/
def Predictor.predict_checked (valence_model arousal_model : AudioNet)
    (coins : ℕ → Bool) (file : Option (List ℚ)) :
    Except PipelineError (ℚ × ℚ) := do
  let wave ← decode_audio file
  let features ← extract_features_checked wave
  let v ← valence_model.forward_checked coins features
  let a ← arousal_model.forward_checked coins features
  pure (v, a)

/-- The two functions the module binds to the name `extract_features`. -/
inductive ModuleFn
  | affectExtractor
  | genreExtractor
deriving DecidableEq

/-- The module-level bindings of the name `extract_features` in `runner.py`,
in top-to-bottom execution order: the affect-descriptor extractor at line 83,
then the genre-statistics extractor at line 284. -/
def extract_features_bindings : List (String × ModuleFn) :=
  [("extract_features", ModuleFn.affectExtractor),
   ("extract_features", ModuleFn.genreExtractor)]

/-- Sequential top-level execution of the module: a later binding of a name
shadows an earlier one, so a lookup after module load sees the last binding. -/
def module_lookup (name : String) : Option ModuleFn :=
  (extract_features_bindings.reverse.find? (fun b => b.1 == name)).map Prod.snd

/-- Mean, `np.mean`, of a vector of samples. -/
def mean (xs : List ℚ) : ℚ := xs.sum / xs.length

/-- Variance, `np.var`, of a vector of samples. -/
def variance (xs : List ℚ) : ℚ :=
  (xs.map (fun x => (x - mean xs) ^ 2)).sum / xs.length

/-- The pair `[np.mean(d), np.var(d)]` extended onto the features for one descriptor `d`. -/
def mean_var (xs : List ℚ) : List ℚ := [mean xs, variance xs]

/-- Modelled from the library contract: a one-band descriptor (rms, spectral
centroid, bandwidth, rolloff, zero-crossing rate, tempo) is a single row of
frame values. -/
def single_row (wave : List ℚ) : List ℚ :=
  List.replicate (n_frames wave.length) wave.sum

/-- The module-level genre `extract_features` (runner.py lines 284-309): mean
and variance of chroma, rms, spectral centroid, bandwidth, rolloff,
zero-crossing rate, harmonic and percussive components, the mean tempo, then
mean and variance of each of the 20 mfcc rows appended in a loop.  The genre
extractor decodes at the native sample rate and applies no window fixing, so
the waveform is consumed as is. -/
def genre_extract_features (wave : List ℚ) : List ℚ :=
  ((mfcc 20 wave).foldl (fun acc r => acc ++ mean_var r)
    (mean_var (chroma_stft wave).flatten ++
     mean_var (single_row wave) ++
     mean_var (single_row wave) ++
     mean_var (single_row wave) ++
     mean_var (single_row wave) ++
     mean_var (single_row wave) ++
     mean_var wave ++
     mean_var wave ++
     [mean (single_row wave)]))

/-! ## Theorems -/

/-- Invariant of the loop of `find_emotion` once a best entry is held: folding
a list from state `(some b, some m)` either leaves the state unchanged (every
remaining entry is at distance at least `m`), or ends at the first entry of the
list that is strictly closer than `m` and no farther than every other entry. -/
theorem foldl_emoStep_spec (v a : ℚ) (l : List (String × ℚ × ℚ)) :
    ∀ (b : String) (m : ℚ),
      (l.foldl (emoStep v a) (some b, some m) = (some b, some m) ∧
        ∀ x ∈ l, m ≤ dist2 v a x.2) ∨
      (∃ i, ∃ h : i < l.length,
        l.foldl (emoStep v a) (some b, some m)
          = (some (l.get ⟨i, h⟩).1, some (dist2 v a (l.get ⟨i, h⟩).2)) ∧
        dist2 v a (l.get ⟨i, h⟩).2 < m ∧
        (∀ x ∈ l, dist2 v a (l.get ⟨i, h⟩).2 ≤ dist2 v a x.2) ∧
        (∀ j, ∀ hj : j < i, dist2 v a (l.get ⟨i, h⟩).2
            < dist2 v a (l.get ⟨j, hj.trans h⟩).2)) := by
  induction l with
  | nil =>
    intro b m
    left
    exact ⟨rfl, by intro x hx; cases hx⟩
  | cons e rest ih =>
    intro b m
    by_cases hd : dist2 v a e.2 < m
    · have hstep : emoStep v a (some b, some m) e = (some e.1, some (dist2 v a e.2)) := by
        simp [emoStep, hd]
      rcases ih e.1 (dist2 v a e.2) with ⟨heq, hall⟩ | ⟨i, hi, heq, hlt, hmin, hprev⟩
      · right
        refine ⟨0, Nat.succ_pos _, ?_, ?_, ?_, ?_⟩
        · show rest.foldl (emoStep v a) (emoStep v a (some b, some m) e) = _
          rw [hstep, heq]
          simp
        · simpa using hd
        · intro x hx
          rw [List.mem_cons] at hx
          rcases hx with rfl | hx
          · simp
          · simpa using hall x hx
        · intro j hj
          exact absurd hj (Nat.not_lt_zero j)
      · right
        refine ⟨i + 1, Nat.succ_lt_succ hi, ?_, ?_, ?_, ?_⟩
        · show rest.foldl (emoStep v a) (emoStep v a (some b, some m) e) = _
          rw [hstep, heq]
          simp
        · simpa using hlt.trans hd
        · intro x hx
          rw [List.mem_cons] at hx
          rcases hx with rfl | hx
          · simpa using le_of_lt hlt
          · simpa using hmin x hx
        · intro j hj
          match j, hj with
          | 0, _ => simpa using hlt
          | k + 1, hj => simpa using hprev k (Nat.lt_of_succ_lt_succ hj)
    · have hstep : emoStep v a (some b, some m) e = (some b, some m) := by
        simp [emoStep, hd]
      have hme : m ≤ dist2 v a e.2 := not_lt.mp hd
      rcases ih b m with ⟨heq, hall⟩ | ⟨i, hi, heq, hlt, hmin, hprev⟩
      · left
        constructor
        · show rest.foldl (emoStep v a) (emoStep v a (some b, some m) e) = _
          rw [hstep, heq]
        · intro x hx
          rw [List.mem_cons] at hx
          rcases hx with rfl | hx
          · exact hme
          · exact hall x hx
      · right
        refine ⟨i + 1, Nat.succ_lt_succ hi, ?_, ?_, ?_, ?_⟩
        · show rest.foldl (emoStep v a) (emoStep v a (some b, some m) e) = _
          rw [hstep, heq]
          simp
        · simpa using hlt
        · intro x hx
          rw [List.mem_cons] at hx
          rcases hx with rfl | hx
          · simpa using le_of_lt (hlt.trans_le hme)
          · simpa using hmin x hx
        · intro j hj
          match j, hj with
          | 0, _ => simpa using hlt.trans_le hme
          | k + 1, hj => simpa using hprev k (Nat.lt_of_succ_lt_succ hj)

/-- The first entry always replaces the initial `(None, math.inf)` state, so the
fold over a nonempty catalog behaves as if started holding the head entry. -/
theorem foldl_emoStep_none (v a : ℚ) (e : String × ℚ × ℚ)
    (rest : List (String × ℚ × ℚ)) :
    (e :: rest).foldl (emoStep v a) (none, none)
      = (e :: rest).foldl (emoStep v a) (some e.1, some (dist2 v a e.2)) := by
  show rest.foldl (emoStep v a) (emoStep v a (none, none) e)
      = rest.foldl (emoStep v a) (emoStep v a (some e.1, some (dist2 v a e.2)) e)
  simp [emoStep]

/-- The loop of `find_emotion` over any nonempty catalog returns the name of
the entry with minimal distance, and on equal distance the entry with the
smaller index wins: every strictly earlier entry is strictly farther. -/
theorem argmin_of_cons (v a : ℚ) (l : List (String × ℚ × ℚ))
    (e : String × ℚ × ℚ) (rest : List (String × ℚ × ℚ)) (hl : l = e :: rest) :
    ∃ i, ∃ h : i < l.length,
      (l.foldl (emoStep v a) (none, none)).1 = some (l.get ⟨i, h⟩).1 ∧
      (∀ x ∈ l, dist2 v a (l.get ⟨i, h⟩).2 ≤ dist2 v a x.2) ∧
      (∀ j, ∀ hj : j < i, dist2 v a (l.get ⟨i, h⟩).2
          < dist2 v a (l.get ⟨j, hj.trans h⟩).2) := by
  subst hl
  have h0 := foldl_emoStep_none v a e rest
  rcases foldl_emoStep_spec v a (e :: rest) e.1 (dist2 v a e.2) with
    ⟨heq, hall⟩ | ⟨i, hi, heq, hlt, hmin, hprev⟩
  · refine ⟨0, Nat.succ_pos _, ?_, ?_, ?_⟩
    · rw [h0, heq]
      simp
    · intro x hx
      simpa using hall x hx
    · intro j hj
      exact absurd hj (Nat.not_lt_zero j)
  · refine ⟨i, hi, ?_, hmin, hprev⟩
    rw [h0, heq]

/-- C1: for every rational query pair, `find_emotion` returns the name of
the catalog entry minimizing Euclidean distance (equivalently, squared
distance), and on ties the entry appearing earlier in catalog iteration order
wins: every entry strictly before the returned index is strictly farther, so a
later entry replaces the current best only when strictly closer.  Moreover the
query equal to the "Happy" reference point (0.89, 0.17) returns "Happy" at
distance 0. -/
theorem find_emotion_nearest :
    (∀ v a : ℚ, ∃ i, ∃ h : i < emotions.length,
      find_emotion v a = some (emotions.get ⟨i, h⟩).1 ∧
      (∀ x ∈ emotions, dist2 v a (emotions.get ⟨i, h⟩).2 ≤ dist2 v a x.2) ∧
      (∀ j, ∀ hj : j < i, dist2 v a (emotions.get ⟨i, h⟩).2
          < dist2 v a (emotions.get ⟨j, hj.trans h⟩).2)) ∧
    ("Happy", ((0.89 : ℚ), (0.17 : ℚ))) ∈ emotions ∧
    find_emotion 0.89 0.17 = some "Happy" ∧
    dist2 0.89 0.17 (0.89, 0.17) = 0 := by
  refine ⟨?_, by norm_num [emotions], ?_, by norm_num [dist2]⟩
  · intro v a
    exact argmin_of_cons v a emotions _ _ rfl
  · norm_num [find_emotion, emotions, emoStep, dist2]

/-- C6: `normalize_value` is the pure affine map `x ↦ (x - 1) / 4 - 1`:
it sends 1 to -1 and 5 to 0, is strictly monotonically increasing, and
`get_colormap` applies it independently to valence and arousal before the
nearest-emotion lookup. -/
theorem normalize_value_spec :
    normalize_value 1 = -1 ∧ normalize_value 5 = 0 ∧
    (∀ x y : ℚ, x < y → normalize_value x < normalize_value y) ∧
    (∀ v a : ℚ, get_colormap v a
        = match find_emotion (normalize_value v) (normalize_value a) with
          | some emotion => color_of emotion
          | none => none) := by
  refine ⟨by norm_num [normalize_value], by norm_num [normalize_value], ?_, ?_⟩
  · intro x y h
    unfold normalize_value
    linarith
  · intro v a
    rfl

/-- C4 counterexample: the catalog does not contain exactly 33 emotion
names; it has 34 entries (and 34 distinct keys). -/
theorem emotions_not_33 : ¬ emotions.length = 33 := by decide

/-- C4 (amended): the emotion catalog is a fixed mapping containing
exactly 34 emotion names, with no duplicate keys: every entry's name occurs in
exactly one catalog entry, and each entry carries exactly one valence and one
arousal value by construction of the pair type. -/
theorem emotions_catalog_spec :
    emotions.length = 34 ∧
    (emotions.map Prod.fst).Nodup ∧
    (∀ e ∈ emotions, emotions.countP (fun x => x.1 == e.1) = 1) := by
  refine ⟨by decide, by decide, by decide⟩

/-- C3: the four color clusters partition the emotion catalog: every
catalog emotion belongs to exactly one cluster, every clustered name is a
catalog key, and color resolution is total over the catalog — for every
catalog emotion, `color_of` (the cluster scan of `get_colormap`) yields
exactly one of the four defined colors; consequently `get_colormap` never
reaches its `None` branch, on any input. -/
theorem clusters_partition :
    (∀ e ∈ emotions, clustered_emotions.countP (fun ce => ce.2.contains e.1) = 1) ∧
    (∀ ce ∈ clustered_emotions, ∀ name ∈ ce.2,
      emotions.countP (fun x => x.1 == name) = 1) ∧
    (∀ e ∈ emotions, ∃ c ∈ (["blue", "red", "green", "purple"] : List String),
      color_of e.1 = some c) ∧
    (∀ v a : ℚ, ∃ c ∈ (["blue", "red", "green", "purple"] : List String),
      get_colormap v a = some c) := by
  have htotal : ∀ e ∈ emotions, ∃ c ∈ (["blue", "red", "green", "purple"] : List String),
      color_of e.1 = some c := by decide
  refine ⟨by decide, by decide, htotal, ?_⟩
  intro v a
  obtain ⟨i, hi, hfind, -, -⟩ :=
    argmin_of_cons (normalize_value v) (normalize_value a) emotions _ _ rfl
  have hmem : emotions.get ⟨i, hi⟩ ∈ emotions := List.get_mem emotions i hi
  obtain ⟨c, hc, hcolor⟩ := htotal _ hmem
  refine ⟨c, hc, ?_⟩
  show (match find_emotion (normalize_value v) (normalize_value a) with
    | some emotion => color_of emotion
    | none => none) = some c
  rw [show find_emotion (normalize_value v) (normalize_value a)
      = some (emotions.get ⟨i, hi⟩).1 from hfind]
  exact hcolor

/-- The fixed window always holds exactly `sr * 45` samples. -/
theorem fix_window_length (wave : List ℚ) :
    (fix_window wave).length = window_len := by
  unfold fix_window
  by_cases h : wave.length < window_len
  · rw [if_pos h]
    rw [List.length_take]
    simp
    omega
  · rw [if_neg h]
    rw [List.length_take]
    omega

/-- C2: the waveform passed to the spectral transforms has length exactly
`sample_rate * 45 = 1984500`; an input shorter than that is zero-padded at the
end to exactly that length, and the result depends only on the first 1984500
samples of the input, so no later sample is ever read by any descriptor. -/
theorem fix_window_spec (wave : List ℚ) :
    window_len = 1984500 ∧
    (fix_window wave).length = window_len ∧
    (wave.length < window_len →
      fix_window wave = wave ++ List.replicate (window_len - wave.length) 0) ∧
    fix_window wave = fix_window (wave.take window_len) := by
  refine ⟨rfl, fix_window_length wave, ?_, ?_⟩
  · intro h
    unfold fix_window
    rw [if_pos h]
    apply List.take_of_length_le
    simp
    omega
  · by_cases h : wave.length < window_len
    · rw [List.take_of_length_le (le_of_lt h)]
    · have hlen : (wave.take window_len).length = window_len := by
        rw [List.length_take]
        omega
      unfold fix_window
      rw [if_neg h, if_neg (by omega)]
      rw [List.take_take]
      simp

/-- C5: the feature descriptor has exactly 39 channels
(20 cepstral + 12 chroma + 7 spectral-contrast, concatenated in that order)
for every input, independent of its duration or amplitude; and every channel
has the same fixed frame count, determined by the fixed window alone. -/
theorem extract_features_channels (wave : List ℚ) :
    (Predictor.extract_features wave).length = 39 ∧
    (mfcc 20 (fix_window wave)).length = 20 ∧
    (chroma_stft (fix_window wave)).length = 12 ∧
    (spectral_contrast (fix_window wave)).length = 7 ∧
    Predictor.extract_features wave
      = mfcc 20 (fix_window wave) ++ chroma_stft (fix_window wave)
          ++ spectral_contrast (fix_window wave) ∧
    (∀ row ∈ Predictor.extract_features wave, row.length = n_frames window_len) := by
  refine ⟨?_, ?_, ?_, ?_, rfl, ?_⟩
  · simp [Predictor.extract_features, mfcc, chroma_stft, spectral_contrast, descriptor_rows]
  · simp [mfcc, descriptor_rows]
  · simp [chroma_stft, descriptor_rows]
  · simp [spectral_contrast, descriptor_rows]
  · intro row hrow
    simp [Predictor.extract_features, mfcc, chroma_stft, spectral_contrast,
      descriptor_rows, List.mem_append] at hrow
    simp [hrow, fix_window_length]

/-- C8: with both models put in evaluation mode by `Predictor.load_model`
(dropout disabled, statistics frozen), two calls of `Predictor.predict` on the
same waveform with the same loaded weights yield identical (valence, arousal)
pairs, whatever coin streams the two calls observe: inference has no hidden
randomness. -/
theorem predict_deterministic (vnet anet : AudioNet) (coins1 coins2 : ℕ → Bool)
    (wave : List ℚ) :
    Predictor.predict (Predictor.load_model vnet) (Predictor.load_model anet)
        coins1 wave
      = Predictor.predict (Predictor.load_model vnet) (Predictor.load_model anet)
        coins2 wave := by
  simp [Predictor.predict, Predictor.predict_counting,
    Predictor.extract_features_counting, Predictor.load_model,
    AudioNet.forward, dropout]

/-- C9: in `Predictor.predict` the feature descriptor is computed exactly
once per call (the extraction counter ends at 1), and the two regressors both
consume that single descriptor — the valence and arousal outputs are the
forward passes of the two models on the same `Predictor.extract_features`
value. -/
theorem predict_single_extraction (vnet anet : AudioNet) (coins : ℕ → Bool)
    (wave : List ℚ) :
    (Predictor.predict_counting vnet anet coins wave).run 0
      = ((vnet.forward coins (Predictor.extract_features wave),
          anet.forward coins (Predictor.extract_features wave)), 1) := by
  rfl

/-- Bind over `Except` propagates an error unchanged. -/
theorem except_bind_error {e' a' b' : Type} (e : e') (f : a' → Except e' b') :
    (Except.error e : Except e' a') >>= f = Except.error e := rfl

/-- Bind over `Except` on a success applies the continuation. -/
theorem except_bind_ok {e' a' b' : Type} (x : a') (f : a' → Except e' b') :
    (Except.ok x : Except e' a') >>= f = f x := rfl

/-- C7: feature extraction fails with `FeatureError` on an empty waveform,
a regressor fails with `ShapeError` on a channel-count mismatch, and
`Predictor.predict` surfaces `DecodeError` / `FeatureError` / `ShapeError` by
propagation: any upstream error is returned unchanged, and a successful result
exists only when every stage succeeded, with the output exactly the two
regressors' outputs (no silent recovery, no substituted default affect
values). -/
theorem predict_propagates_errors :
    (∀ wave : List ℚ, wave.isEmpty = true →
      extract_features_checked wave = Except.error PipelineError.featureError) ∧
    (∀ (net : AudioNet) (coins : ℕ → Bool) (x : List (List ℚ)),
      x.length ≠ net.in_ch →
      net.forward_checked coins x = Except.error PipelineError.shapeError) ∧
    (∀ (vnet anet : AudioNet) (coins : ℕ → Bool) (e : PipelineError)
        (file : Option (List ℚ)),
      decode_audio file = Except.error e →
      Predictor.predict_checked vnet anet coins file = Except.error e) ∧
    (∀ (vnet anet : AudioNet) (coins : ℕ → Bool) (e : PipelineError)
        (wave : List ℚ),
      extract_features_checked wave = Except.error e →
      Predictor.predict_checked vnet anet coins (some wave) = Except.error e) ∧
    (∀ (vnet anet : AudioNet) (coins : ℕ → Bool) (file : Option (List ℚ))
        (p : ℚ × ℚ),
      Predictor.predict_checked vnet anet coins file = Except.ok p →
      ∃ wave features,
        decode_audio file = Except.ok wave ∧
        extract_features_checked wave = Except.ok features ∧
        vnet.forward_checked coins features = Except.ok p.1 ∧
        anet.forward_checked coins features = Except.ok p.2) := by
  refine ⟨?_, ?_, ?_, ?_, ?_⟩
  · intro wave h
    simp [extract_features_checked, h]
  · intro net coins x h
    simp [AudioNet.forward_checked, h]
  · intro vnet anet coins e file h
    unfold Predictor.predict_checked
    rw [h, except_bind_error]
  · intro vnet anet coins e wave h
    unfold Predictor.predict_checked
    rw [show decode_audio (some wave) = Except.ok wave from rfl,
      except_bind_ok, h, except_bind_error]
  · intro vnet anet coins file p h
    unfold Predictor.predict_checked at h
    rcases hdec : decode_audio file with e | wave
    · rw [hdec, except_bind_error] at h
      exact Except.noConfusion h
    · rw [hdec, except_bind_ok] at h
      rcases hext : extract_features_checked wave with e | features
      · rw [hext, except_bind_error] at h
        exact Except.noConfusion h
      · rw [hext, except_bind_ok] at h
        rcases hv : vnet.forward_checked coins features with e | v
        · rw [hv, except_bind_error] at h
          exact Except.noConfusion h
        · rw [hv, except_bind_ok] at h
          rcases ha : anet.forward_checked coins features with e | a
          · rw [ha, except_bind_error] at h
            exact Except.noConfusion h
          · rw [ha, except_bind_ok] at h
            have hp : (v, a) = p := Except.ok.inj h
            subst hp
            exact ⟨wave, features, rfl, hext, by simp [hv], by simp [ha]⟩

/-- Extending a feature list by `[mean, var]` per descriptor row adds two
entries per row. -/
theorem foldl_mean_var_length (rows : List (List ℚ)) :
    ∀ acc : List ℚ,
      (rows.foldl (fun acc r => acc ++ mean_var r) acc).length
        = acc.length + 2 * rows.length := by
  induction rows with
  | nil => intro acc; simp
  | cons r rest ih =>
    intro acc
    show (rest.foldl (fun acc r => acc ++ mean_var r) (acc ++ mean_var r)).length = _
    rw [ih]
    simp [mean_var]
    ring

/-- C10: the module binds the name `extract_features` twice; after module
load the module-level name resolves to the genre extractor, which returns a
flat 57-element statistics vector for every input, so the 39-channel affect
descriptor is reachable only through the distinct name
`Predictor.extract_features`. -/
theorem extract_features_shadowed :
    module_lookup "extract_features" = some ModuleFn.genreExtractor ∧
    extract_features_bindings.length = 2 ∧
    extract_features_bindings.map Prod.snd
      = [ModuleFn.affectExtractor, ModuleFn.genreExtractor] ∧
    (∀ wave : List ℚ, (genre_extract_features wave).length = 57) ∧
    (∀ wave : List ℚ, (Predictor.extract_features wave).length = 39) := by
  refine ⟨rfl, rfl, rfl, ?_, ?_⟩
  · intro wave
    unfold genre_extract_features
    rw [foldl_mean_var_length]
    simp [mean_var, mfcc, descriptor_rows]
  · intro wave
    simp [Predictor.extract_features, mfcc, chroma_stft, spectral_contrast,
      descriptor_rows]

end Moodify
